import Mathlib

/-!
# Verification of the API key rotation and retry wrapper

A shallow embedding of `src/services/geminiService.ts`: the key pool parsing
(`getNextApiKey`, line 18), the credential masking (line 30), the failure
classification (lines 63-66) and the bounded retry loop `executeWithRetry`
(lines 41-82).

Strings are modelled as `List Char`.  The mutable module-level rotation
cursor `keyIndex` is threaded explicitly as a `Nat` state.  The asynchronous
`operation` is modelled as a pure function from the invocation index (how many
times it has been invoked so far in this logical call) and the supplied api
key to an `Except` outcome; `Math.random()` is modelled as an injected jitter
stream `Nat → ℚ` with values in `[0, 1)`.  A run of `executeWithRetry` is
recorded as a `Trace`: the list of keys passed to the operation in order, the
list of backoff delays awaited (in milliseconds), the final cursor state, and
the returned / thrown result.
-/

namespace Eduvision

/-- JS whitespace test used by `String.prototype.trim`. -/
def isWS (c : Char) : Bool := c.isWhitespace

/-- Model of `String.prototype.trim`: drop whitespace from both ends. -/
def trimChars (s : List Char) : List Char :=
  ((s.dropWhile isWS).reverse.dropWhile isWS).reverse

/-- Model of `String.prototype.split(',')`: split on commas, keeping empty pieces
(`"".split(',') = [""]`, `"a,,b".split(',') = ["a","","b"]`). -/
def splitComma : List Char → List (List Char)
  | [] => [[]]
  | c :: cs =>
    if c = ',' then [] :: splitComma cs
    else
      match splitComma cs with
      | [] => [[c]]
      | t :: ts => (c :: t) :: ts

/-- The credential pool as parsed inside `getNextApiKey` (line 20):
`keysRaw.split(',').map(k => k.trim()).filter(k => k)` — split on commas,
trim each part, keep the non-empty ones. -/
def parseKeys (raw : List Char) : List (List Char) :=
  ((splitComma raw).map trimChars).filter (fun k => !k.isEmpty)

/-- The key list as computed inside `executeWithRetry` (line 45):
`keysRaw.split(',').filter(k => k.trim())` — same filter, but the kept
entries are NOT trimmed.  Only its length is used (for the emptiness check
and the retry budget). -/
def retryKeys (raw : List Char) : List (List Char) :=
  (splitComma raw).filter (fun k => !(trimChars k).isEmpty)

/-- Model of `getNextApiKey` (lines 18-35): re-parses the pool, returns `""` when the
pool is empty (after logging an error), otherwise returns `keys[keyIndex]`
and advances the module-level cursor by `keyIndex = (keyIndex + 1) % keys.length`.
Returns the issued key together with the new cursor value. -/
def getNextApiKey (raw : List Char) (keyIndex : Nat) : List Char × Nat :=
  let keys := parseKeys raw
  if keys.length = 0 then ([], keyIndex)
  else (keys.getD keyIndex [], (keyIndex + 1) % keys.length)

/-- The masked diagnostic form of a key (line 30):
`key.substring(0, 8) + '...' + key.substring(key.length - 4)`.
JS `substring` clamps out-of-range indices, which `List.take`/`List.drop`
with truncated `Nat` subtraction reproduce exactly. -/
def maskKey (key : List Char) : List Char :=
  key.take 8 ++ ('.' :: '.' :: '.' :: []) ++ key.drop (key.length - 4)

/-- A thrown JS error as inspected by the retry loop: an optional `message`
string and an optional numeric `status` field. -/
structure JsError where
  message : Option (List Char)
  status : Option Int
deriving DecidableEq, Repr

/-- Model of `String.prototype.includes(pat)`: `pat` occurs as a contiguous substring. -/
def includes (s pat : List Char) : Bool := decide (pat <:+: s)

/-- The rate-limit classification (lines 63-66):
`error.message?.includes('429') || error.message?.includes('Resource has been exhausted') || error.status === 429`.
An absent message makes both `includes` checks falsy. -/
def isRateLimit (e : JsError) : Bool :=
  (match e.message with
   | some m =>
     includes m ('4' :: '2' :: '9' :: []) ||
     includes m "Resource has been exhausted".toList
   | none => false) ||
  (e.status == some 429)

/-- One recorded run of `executeWithRetry`. -/
structure Trace (T : Type) where
  /-- The api keys passed to `operation`, in invocation order. -/
  calls : List (List Char)
  /-- The backoff delays awaited, in milliseconds, in order. -/
  delays : List ℚ
  /-- The rotation cursor after the run. -/
  finalState : Nat
  /-- The value returned (`.ok`) or the error thrown (`.error`). -/
  result : Except JsError T
deriving Repr

/-- Placeholder for the `undefined` initial value of `lastError` (line 53);
never surfaced when the loop body runs at least once. -/
def undefinedError : JsError := ⟨none, none⟩

/-- The `for` loop of `executeWithRetry` (lines 55-78), by recursion on the
remaining iteration count.  `i` is the invocation index so far, `st` the
rotation cursor, `last` the `lastError` variable.  Each iteration obtains a
key via `getNextApiKey`, invokes the operation, returns on success, and on
failure either backs off (`200 + Math.random() * 300` ms) and continues when
the error is rate-limit classified, or rethrows immediately.  When the fuel
runs out the last error is thrown (line 81). -/
def retryLoop {T : Type} (raw : List Char) (op : Nat → List Char → Except JsError T)
    (jitter : Nat → ℚ) : Nat → Nat → Nat → JsError → Trace T
  | 0, _, st, last => ⟨[], [], st, .error last⟩
  | fuel + 1, i, st, _ =>
    let issued := getNextApiKey raw st
    match op i issued.1 with
    | .ok v => ⟨[issued.1], [], issued.2, .ok v⟩
    | .error e =>
      if isRateLimit e then
        let rest := retryLoop raw op jitter fuel (i + 1) issued.2 e
        ⟨issued.1 :: rest.calls, (200 + jitter i * 300) :: rest.delays,
          rest.finalState, rest.result⟩
      else
        ⟨[issued.1], [], issued.2, .error e⟩

/-- Model of `executeWithRetry` (lines 41-82): if the pool is empty the operation is
invoked exactly once with the empty key and its outcome is returned as-is
(line 48); otherwise the loop runs with budget `min(keys.length, 5)`
(line 51). -/
def executeWithRetry {T : Type} (raw : List Char)
    (op : Nat → List Char → Except JsError T) (jitter : Nat → ℚ)
    (st : Nat) : Trace T :=
  let keys := retryKeys raw
  if keys.length = 0 then ⟨[[]], [], st, op 0 []⟩
  else retryLoop raw op jitter (min keys.length 5) 0 st undefinedError

/-- The credential at a given cursor position (`keys[keyIndex]`, line 27). -/
def keyAt (raw : List Char) (i : Nat) : List Char := (parseKeys raw).getD i []

/-- The successive values of the module-level cursor `keyIndex` under repeated
calls to `getNextApiKey`, starting from its initial value `0` (line 16). -/
def rotStates (raw : List Char) : Nat → Nat
  | 0 => 0
  | m + 1 => (getNextApiKey raw (rotStates raw m)).2

/-- The credential issued by the `(m+1)`-th call to `getNextApiKey` starting
from the initial cursor. -/
def issuedKey (raw : List Char) (m : Nat) : List Char :=
  (getNextApiKey raw (rotStates raw m)).1

section Lemmas

variable {T : Type}

/-- Both parses of the configuration string (line 20 and line 45) yield the
same number of keys: trimming before or after the non-emptiness filter does
not change which entries survive. -/
theorem length_retryKeys (raw : List Char) :
    (retryKeys raw).length = (parseKeys raw).length := by
  unfold parseKeys retryKeys
  rw [List.filter_map, List.length_map]
  rfl

theorem getNextApiKey_of_ne (raw : List Char) (st : Nat)
    (h : (parseKeys raw).length ≠ 0) :
    getNextApiKey raw st = (keyAt raw st, (st + 1) % (parseKeys raw).length) := by
  unfold getNextApiKey keyAt
  simp [h]

theorem getNextApiKey_of_empty (raw : List Char) (st : Nat)
    (h : parseKeys raw = []) : getNextApiKey raw st = ([], st) := by
  unfold getNextApiKey
  simp [h]

theorem keyAt_mem (raw : List Char) (st : Nat)
    (h : st < (parseKeys raw).length) : keyAt raw st ∈ parseKeys raw := by
  unfold keyAt
  rw [List.getD_eq_getElem _ _ h]
  exact List.getElem_mem h

/-- Peeling one step off a `List.range` map. -/
theorem map_range_cons {α : Type} (g : Nat → α) (k : Nat) :
    g 0 :: (List.range k).map (fun j => g (j + 1)) = (List.range (k + 1)).map g := by
  rw [List.range_succ_eq_map, List.map_cons, List.map_map]
  rfl

/-- Core loop characterization: if the operation fails rate-limited on
invocations `i .. i+k-1` and terminates the loop on invocation `i+k` (either
by succeeding or by failing with a non-rate-limit error), then the loop
performs exactly `k+1` invocations with the keys at cursor positions
`st, st+1, …, st+k (mod n)`, takes exactly `k` backoff delays, leaves the
cursor at `st+k+1 (mod n)`, and its result is exactly the outcome of the
final invocation. -/
theorem retryLoop_terminates_at (raw : List Char)
    (op : Nat → List Char → Except JsError T) (jitter : Nat → ℚ) (k : Nat) :
    ∀ (fuel i st : Nat) (last : JsError), k < fuel →
    st < (parseKeys raw).length →
    (∀ j, j < k → ∀ s, ∃ e, op (i + j) s = .error e ∧ isRateLimit e = true) →
    (∀ s, (∃ v, op (i + k) s = .ok v) ∨
          (∃ e, op (i + k) s = .error e ∧ isRateLimit e = false)) →
    retryLoop raw op jitter fuel i st last =
      ⟨(List.range (k + 1)).map
          (fun j => keyAt raw ((st + j) % (parseKeys raw).length)),
       (List.range k).map (fun j => 200 + jitter (i + j) * 300),
       (st + k + 1) % (parseKeys raw).length,
       op (i + k) (keyAt raw ((st + k) % (parseKeys raw).length))⟩ := by
  induction k with
  | zero =>
    intro fuel i st last hk hst hfail hterm
    obtain ⟨f, rfl⟩ : ∃ f, fuel = f + 1 := ⟨fuel - 1, by omega⟩
    have hne : (parseKeys raw).length ≠ 0 := by omega
    have hkey := getNextApiKey_of_ne raw st hne
    have hmod : st % (parseKeys raw).length = st := Nat.mod_eq_of_lt hst
    rcases hterm (keyAt raw st) with ⟨v, hv⟩ | ⟨e, he, hre⟩
    · rw [Nat.add_zero] at hv
      simp [retryLoop, hkey, hmod, hv, List.range_succ]
    · rw [Nat.add_zero] at he
      simp [retryLoop, hkey, hmod, he, hre, List.range_succ]
  | succ k ih =>
    intro fuel i st last hk hst hfail hterm
    obtain ⟨f, rfl⟩ : ∃ f, fuel = f + 1 := ⟨fuel - 1, by omega⟩
    have hne : (parseKeys raw).length ≠ 0 := by omega
    have hkey := getNextApiKey_of_ne raw st hne
    obtain ⟨e, he, hre⟩ := hfail 0 (Nat.succ_pos k) (keyAt raw st)
    rw [Nat.add_zero] at he
    have hst1 : (st + 1) % (parseKeys raw).length < (parseKeys raw).length :=
      Nat.mod_lt _ (by omega)
    have hrest := ih f (i + 1) ((st + 1) % (parseKeys raw).length) e (by omega) hst1
      (fun j hj s => by
        have := hfail (j + 1) (by omega) s
        rwa [show i + (j + 1) = i + 1 + j by omega] at this)
      (fun s => by
        have := hterm s
        rwa [show i + (k + 1) = i + 1 + k by omega] at this)
    have hmod : st % (parseKeys raw).length = st := Nat.mod_eq_of_lt hst
    simp only [retryLoop, hkey, he, hre, if_true, hrest]
    rw [Trace.mk.injEq]
    refine ⟨?_, ?_, ?_, ?_⟩
    · rw [← map_range_cons (fun j => keyAt raw ((st + j) % (parseKeys raw).length)) (k + 1)]
      congr 1
      · simp [hmod]
      · refine List.map_congr_left fun j _ => ?_
        show keyAt raw (((st + 1) % (parseKeys raw).length + j) % (parseKeys raw).length) =
          keyAt raw ((st + (j + 1)) % (parseKeys raw).length)
        rw [Nat.mod_add_mod, show st + 1 + j = st + (j + 1) by omega]
    · rw [← map_range_cons (fun j => 200 + jitter (i + j) * 300) k]
      congr 1
      refine List.map_congr_left fun j _ => ?_
      show 200 + jitter (i + 1 + j) * 300 = 200 + jitter (i + (j + 1)) * 300
      rw [show i + 1 + j = i + (j + 1) by omega]
    · conv_lhs => rw [Nat.add_assoc, Nat.mod_add_mod]
      congr 1
      omega
    · rw [Nat.mod_add_mod, show i + 1 + k = i + (k + 1) by omega,
        show st + 1 + k = st + (k + 1) by omega]

/-- Exhaustion characterization: if every invocation fails rate-limited then
the loop runs its full fuel `m + 1`, invoking the operation once per
iteration with successively rotated keys, taking one backoff delay per
iteration (including one after the final failed attempt), and finally
rethrows exactly the error of the last attempt. -/
theorem retryLoop_all_rl (raw : List Char)
    (op : Nat → List Char → Except JsError T) (jitter : Nat → ℚ)
    (hfail : ∀ j s, ∃ e, op j s = .error e ∧ isRateLimit e = true) (m : Nat) :
    ∀ (i st : Nat) (last : JsError), st < (parseKeys raw).length →
    retryLoop raw op jitter (m + 1) i st last =
      ⟨(List.range (m + 1)).map
          (fun j => keyAt raw ((st + j) % (parseKeys raw).length)),
       (List.range (m + 1)).map (fun j => 200 + jitter (i + j) * 300),
       (st + m + 1) % (parseKeys raw).length,
       op (i + m) (keyAt raw ((st + m) % (parseKeys raw).length))⟩ := by
  induction m with
  | zero =>
    intro i st last hst
    have hne : (parseKeys raw).length ≠ 0 := by omega
    have hkey := getNextApiKey_of_ne raw st hne
    have hmod : st % (parseKeys raw).length = st := Nat.mod_eq_of_lt hst
    obtain ⟨e, he, hre⟩ := hfail i (keyAt raw st)
    simp [retryLoop, hkey, he, hre, hmod, List.range_succ]
  | succ m ih =>
    intro i st last hst
    have hne : (parseKeys raw).length ≠ 0 := by omega
    have hkey := getNextApiKey_of_ne raw st hne
    have hmod : st % (parseKeys raw).length = st := Nat.mod_eq_of_lt hst
    obtain ⟨e, he, hre⟩ := hfail i (keyAt raw st)
    have hst1 : (st + 1) % (parseKeys raw).length < (parseKeys raw).length :=
      Nat.mod_lt _ (by omega)
    have hrest := ih (i + 1) ((st + 1) % (parseKeys raw).length) e hst1
    rw [retryLoop]
    simp only [hkey, he, hre, if_true, hrest]
    rw [Trace.mk.injEq]
    refine ⟨?_, ?_, ?_, ?_⟩
    · rw [← map_range_cons (fun j => keyAt raw ((st + j) % (parseKeys raw).length)) (m + 1)]
      congr 1
      · simp [hmod]
      · refine List.map_congr_left fun j _ => ?_
        show keyAt raw (((st + 1) % (parseKeys raw).length + j) % (parseKeys raw).length) =
          keyAt raw ((st + (j + 1)) % (parseKeys raw).length)
        rw [Nat.mod_add_mod, show st + 1 + j = st + (j + 1) by omega]
    · rw [← map_range_cons (fun j => 200 + jitter (i + j) * 300) (m + 1)]
      congr 1
      refine List.map_congr_left fun j _ => ?_
      show 200 + jitter (i + 1 + j) * 300 = 200 + jitter (i + (j + 1)) * 300
      rw [show i + 1 + j = i + (j + 1) by omega]
    · conv_lhs => rw [Nat.add_assoc, Nat.mod_add_mod]
      congr 1
      omega
    · rw [Nat.mod_add_mod, show i + 1 + m = i + (m + 1) by omega,
        show st + 1 + m = st + (m + 1) by omega]

/-- In any run of the loop, at most one backoff delay is taken per loop
iteration, and every delay has the form `200 + jitter j * 300`. -/
theorem retryLoop_delays_bound (raw : List Char)
    (op : Nat → List Char → Except JsError T) (jitter : Nat → ℚ) :
    ∀ (fuel i st : Nat) (last : JsError),
      (retryLoop raw op jitter fuel i st last).delays.length ≤ fuel ∧
      ∀ d ∈ (retryLoop raw op jitter fuel i st last).delays,
        ∃ j, d = 200 + jitter j * 300 := by
  intro fuel
  induction fuel with
  | zero => intro i st last; simp [retryLoop]
  | succ f ih =>
    intro i st last
    rw [retryLoop]
    cases hop : op i (getNextApiKey raw st).1 with
    | error e =>
      by_cases hre : isRateLimit e = true
      · simp only [hop, hre, if_true]
        constructor
        · simpa using Nat.succ_le_succ (ih (i + 1) (getNextApiKey raw st).2 e).1
        · intro d hd
          rcases List.mem_cons.mp hd with h | h
          · exact ⟨i, h⟩
          · exact (ih (i + 1) (getNextApiKey raw st).2 e).2 d h
      · simp [hop, hre]
    | ok v => simp [hop]

/-- Every key the loop passes to the operation is an element of the parsed
credential pool, provided the pool is non-empty and the cursor starts in
bounds. -/
theorem retryLoop_calls_mem (raw : List Char)
    (op : Nat → List Char → Except JsError T) (jitter : Nat → ℚ)
    (hne : (parseKeys raw).length ≠ 0) :
    ∀ (fuel i st : Nat) (last : JsError), st < (parseKeys raw).length →
      ∀ c ∈ (retryLoop raw op jitter fuel i st last).calls, c ∈ parseKeys raw := by
  intro fuel
  induction fuel with
  | zero => intro i st last _; simp [retryLoop]
  | succ f ih =>
    intro i st last hst
    have hkey := getNextApiKey_of_ne raw st hne
    have hmem := keyAt_mem raw st hst
    have hst1 : (st + 1) % (parseKeys raw).length < (parseKeys raw).length :=
      Nat.mod_lt _ (by omega)
    rw [retryLoop, hkey]
    cases hop : op i (keyAt raw st, (st + 1) % (parseKeys raw).length).1 with
    | error e =>
      by_cases hre : isRateLimit e = true
      · simp only [hop, hre, if_true]
        intro c hc
        rcases List.mem_cons.mp hc with h | h
        · exact h ▸ hmem
        · exact ih (i + 1) ((st + 1) % (parseKeys raw).length) e hst1 c h
      · simp only [hop, hre, if_false]
        intro c hc
        rcases List.mem_cons.mp hc with h | h
        · exact h ▸ hmem
        · simp at h
    | ok v =>
      simp only [hop]
      intro c hc
      rcases List.mem_cons.mp hc with h | h
      · exact h ▸ hmem
      · simp at h

/-- Running `executeWithRetry` with a non-empty pool runs the loop with fuel
`min(poolSize, 5)`. -/
theorem executeWithRetry_of_ne (raw : List Char)
    (op : Nat → List Char → Except JsError T) (jitter : Nat → ℚ) (st : Nat)
    (hne : (parseKeys raw).length ≠ 0) :
    executeWithRetry raw op jitter st =
      retryLoop raw op jitter (min (parseKeys raw).length 5) 0 st undefinedError := by
  simp only [executeWithRetry]
  rw [length_retryKeys]
  simp [hne]

/-- Running `executeWithRetry` with an empty pool invokes the operation exactly once
with the empty key, takes no delay, leaves the cursor untouched, and returns
that single invocation's outcome unchanged. -/
theorem executeWithRetry_of_empty (raw : List Char)
    (op : Nat → List Char → Except JsError T) (jitter : Nat → ℚ) (st : Nat)
    (h : parseKeys raw = []) :
    executeWithRetry raw op jitter st = ⟨[[]], [], st, op 0 []⟩ := by
  simp only [executeWithRetry]
  rw [length_retryKeys, h]
  simp

/-- Starting from the initial cursor, the cursor before the `(m+1)`-th
issuance is `m mod n`. -/
theorem rotStates_eq_mod (raw : List Char)
    (hne : (parseKeys raw).length ≠ 0) (m : Nat) :
    rotStates raw m = m % (parseKeys raw).length := by
  induction m with
  | zero => simp [rotStates]
  | succ m ih =>
    rw [rotStates, ih, getNextApiKey_of_ne raw _ hne]
    exact Nat.mod_add_mod m _ 1

/-- Each issued credential sits at pool position `m mod n`: the `(m+1)`-th
call issues the key at position `m mod n`. -/
theorem issuedKey_eq (raw : List Char)
    (hne : (parseKeys raw).length ≠ 0) (m : Nat) :
    issuedKey raw m = keyAt raw (m % (parseKeys raw).length) := by
  unfold issuedKey
  rw [rotStates_eq_mod raw hne, getNextApiKey_of_ne raw _ hne]

/-- Reading the pool at every position in order reproduces the pool. -/
theorem map_keyAt_range (raw : List Char) :
    (List.range (parseKeys raw).length).map (fun m => keyAt raw m) =
      parseKeys raw := by
  apply List.ext_getElem
  · simp
  · intro i h1 h2
    simp [keyAt, List.getD_eq_getElem _ _ h2, List.getElem?_eq_getElem h2]

end Lemmas

section Claims

variable {T : Type}

/-- C8: for every raw configuration string, the parsed credential pool
consists exactly of the trimmed forms of the comma-separated entries that
are non-empty after trimming, in their original order, and its size equals
the number of such entries. -/
theorem c8_pool_parsing (raw : List Char) :
    parseKeys raw =
      ((splitComma raw).filter (fun e => !(trimChars e).isEmpty)).map trimChars ∧
    (parseKeys raw).length =
      (splitComma raw).countP (fun e => !(trimChars e).isEmpty) := by
  have h1 : parseKeys raw =
      ((splitComma raw).filter (fun e => !(trimChars e).isEmpty)).map trimChars := by
    unfold parseKeys
    rw [List.filter_map]
    rfl
  refine ⟨h1, ?_⟩
  rw [h1, List.length_map, List.countP_eq_length_filter]

/-- C4 (amended): a failure is classified RATE_LIMITED precisely when its
message contains the substring `429`, its message contains the substring
`Resource has been exhausted`, or its `status` field equals 429; every other
failure is classified OTHER (terminal), including quota failures whose
message carries none of those exact markers. -/
theorem c4_classification (e : JsError) :
    isRateLimit e = true ↔
      (∃ m, e.message = some m ∧
        (('4' :: '2' :: '9' :: []) <:+: m ∨
         "Resource has been exhausted".toList <:+: m)) ∨
      e.status = some 429 := by
  obtain ⟨msg, status⟩ := e
  cases msg with
  | none => simp [isRateLimit]
  | some m => simp [isRateLimit, includes]

/-- C4 counterexample: an error whose message plainly indicates quota
exhaustion (`"Quota exceeded for this project"`) but carries neither the
substring `429` nor `Resource has been exhausted` nor a 429 status is
classified OTHER, although the claim classifies every quota-exceeded message
as RATE_LIMITED. -/
theorem c4_quota_message_not_rate_limited :
    includes "Quota exceeded for this project".toList "Quota exceeded".toList
      = true ∧
    isRateLimit ⟨some "Quota exceeded for this project".toList, none⟩
      = false := by
  constructor
  · decide
  · decide

/-- C9 (amended): the masked diagnostic form of a credential of length 40 is
exactly its first 8 characters, the fixed separator `...`, and its last 4
characters, for a total length of 15; consequently no credential longer than
15 characters — in particular no 40-character credential — can occur inside
its own masked form.  (Credentials of length at most 15 can: see the
counterexample.) -/
theorem c9_masking (key : List Char) :
    (15 < key.length → ¬ key <:+: maskKey key) ∧
    (key.length = 40 →
      maskKey key =
        key.take 8 ++ ('.' :: '.' :: '.' :: []) ++ key.drop 36 ∧
      (maskKey key).length = 15) := by
  have hlen : (maskKey key).length ≤ 15 ∧
      (4 ≤ key.length → 8 ≤ key.length → (maskKey key).length = 15) := by
    simp only [maskKey, List.length_append, List.length_take,
      List.length_drop, List.length_cons, List.length_nil]
    omega
  constructor
  · intro h hsub
    have := hsub.length_le
    omega
  · intro h40
    constructor
    · unfold maskKey
      rw [h40]
    · exact hlen.2 (by omega) (by omega)

/-- C9 counterexample: for the short credential `"abc"`, JS
`substring(0, 8)` and `substring(length - 4)` both clamp to the whole
string, so the masked form `"abc...abc"` contains the full credential,
contradicting the claim that the masked form never contains the full
credential string. -/
theorem c9_short_key_leaks :
    ('a' :: 'b' :: 'c' :: []) <:+: maskKey ('a' :: 'b' :: 'c' :: []) := by
  decide

/-- C7: with an empty credential pool, `getNextApiKey` returns the empty
("no credential") string without raising and leaves the cursor unchanged,
and `executeWithRetry` invokes the operation exactly once with the empty
credential, takes no backoff delay, and its overall result is exactly what
that single invocation returns or throws. -/
theorem c7_empty_pool (raw : List Char)
    (op : Nat → List Char → Except JsError T) (jitter : Nat → ℚ) (st : Nat)
    (h : parseKeys raw = []) :
    getNextApiKey raw st = ([], st) ∧
    executeWithRetry raw op jitter st = ⟨[[]], [], st, op 0 []⟩ :=
  ⟨getNextApiKey_of_empty raw st h, executeWithRetry_of_empty raw op jitter st h⟩

/-- C7 witness at the whitespace-only configuration `" , "` (two entries,
both empty after trimming) and a throwing operation. -/
theorem c7_empty_pool_witness :
    getNextApiKey " , ".toList 0 = ([], 0) ∧
    executeWithRetry " , ".toList
        (fun _ _ => (Except.error ⟨some "No key".toList, none⟩ : Except JsError Nat))
        (fun _ => 0) 0 =
      ⟨[[]], [], 0, Except.error ⟨some "No key".toList, none⟩⟩ :=
  c7_empty_pool " , ".toList
    (fun _ _ => (Except.error ⟨some "No key".toList, none⟩ : Except JsError Nat))
    (fun _ => 0) 0 (by decide)

/-- C6: from the initial rotation state, for a fixed pool of `n ≥ 1`
credentials the first `n` calls to `getNextApiKey` return exactly the `n`
pool entries in their configured order, the `(n+1)`-th call returns the
first entry again, and the cursor advances by one modulo `n` on every
issuance (the issuance function never inspects any operation outcome, so
the advance is unconditional). -/
theorem c6_round_robin (raw : List Char) (hn : 1 ≤ (parseKeys raw).length) :
    (List.range (parseKeys raw).length).map (issuedKey raw) = parseKeys raw ∧
    issuedKey raw (parseKeys raw).length = keyAt raw 0 ∧
    ∀ m, rotStates raw (m + 1) =
      (rotStates raw m + 1) % (parseKeys raw).length := by
  have hne : (parseKeys raw).length ≠ 0 := by omega
  refine ⟨?_, ?_, ?_⟩
  · conv_rhs => rw [← map_keyAt_range raw]
    refine List.map_congr_left fun m hm => ?_
    rw [issuedKey_eq raw hne, Nat.mod_eq_of_lt (List.mem_range.mp hm)]
  · rw [issuedKey_eq raw hne, Nat.mod_self]
  · intro m
    rw [rotStates, getNextApiKey_of_ne raw _ hne]

/-- C6 witness at the three-key pool `"A,B,C"`. -/
theorem c6_round_robin_witness :
    (List.range (parseKeys "A,B,C".toList).length).map
        (issuedKey "A,B,C".toList) = parseKeys "A,B,C".toList ∧
    issuedKey "A,B,C".toList (parseKeys "A,B,C".toList).length =
      keyAt "A,B,C".toList 0 ∧
    ∀ m, rotStates "A,B,C".toList (m + 1) =
      (rotStates "A,B,C".toList m + 1) % (parseKeys "A,B,C".toList).length :=
  c6_round_robin "A,B,C".toList (by decide)

/-- C10: with a fixed non-empty pool of size `n` and the cursor in bounds,
one issuance leaves the cursor strictly below `n` (so the invariant
`0 ≤ keyIndex < n` is preserved by every call and `keys[keyIndex]` is always
an in-bounds access), the issued credential is an element of the parsed
pool, and consequently every credential `executeWithRetry` passes to an
operation is an element of the parsed pool. -/
theorem c10_cursor_invariant (raw : List Char)
    (op : Nat → List Char → Except JsError T) (jitter : Nat → ℚ) (st : Nat)
    (hn : 1 ≤ (parseKeys raw).length) (hst : st < (parseKeys raw).length) :
    (getNextApiKey raw st).2 < (parseKeys raw).length ∧
    (getNextApiKey raw st).1 ∈ parseKeys raw ∧
    ∀ c ∈ (executeWithRetry raw op jitter st).calls, c ∈ parseKeys raw := by
  have hne : (parseKeys raw).length ≠ 0 := by omega
  refine ⟨?_, ?_, ?_⟩
  · rw [getNextApiKey_of_ne raw st hne]
    exact Nat.mod_lt _ (by omega)
  · rw [getNextApiKey_of_ne raw st hne]
    exact keyAt_mem raw st hst
  · rw [executeWithRetry_of_ne raw op jitter st hne]
    exact retryLoop_calls_mem raw op jitter hne _ 0 st undefinedError hst

/-- C10 witness at the pool `"A,B"`, cursor position 1, and an operation
that rate-limits once and then succeeds. -/
theorem c10_cursor_invariant_witness :
    (getNextApiKey "A,B".toList 1).2 < (parseKeys "A,B".toList).length ∧
    (getNextApiKey "A,B".toList 1).1 ∈ parseKeys "A,B".toList ∧
    ∀ c ∈ (executeWithRetry "A,B".toList
        (fun i _ => if i < 1 then .error ⟨none, some 429⟩ else .ok (0 : Nat))
        (fun _ => 0) 1).calls, c ∈ parseKeys "A,B".toList :=
  c10_cursor_invariant "A,B".toList
    (fun i _ => if i < 1 then .error ⟨none, some 429⟩ else .ok (0 : Nat))
    (fun _ => 0) 1 (by decide) (by decide)

/-- C1 (amended): with a non-empty pool of size `n`, cursor in bounds, and
`k < min(n,5)`: if the operation fails rate-limited on its first `k`
invocations and succeeds on invocation `k+1`, then `executeWithRetry`
invokes it exactly `k+1` times, passing the credentials at the `k+1`
successive (hence pairwise distinct) cursor positions
`st, st+1, …, st+k (mod n)`, and returns the success value of the final
invocation; the credential *strings* are pairwise distinct whenever the
pool entries are pairwise distinct (a pool with duplicate entries can hand
the same string to several attempts — see the counterexample). -/
theorem c1_retry_rotate_succeed (raw : List Char)
    (op : Nat → List Char → Except JsError T) (jitter : Nat → ℚ) (st k : Nat)
    (hn : 1 ≤ (parseKeys raw).length)
    (hst : st < (parseKeys raw).length)
    (hk : k < min (parseKeys raw).length 5)
    (hfail : ∀ j, j < k → ∀ s, ∃ e, op j s = .error e ∧ isRateLimit e = true)
    (hok : ∀ s, ∃ v, op k s = .ok v) :
    (executeWithRetry raw op jitter st).calls =
      (List.range (k + 1)).map
        (fun j => keyAt raw ((st + j) % (parseKeys raw).length)) ∧
    (executeWithRetry raw op jitter st).calls.length = k + 1 ∧
    ((parseKeys raw).Nodup → (executeWithRetry raw op jitter st).calls.Nodup) ∧
    (executeWithRetry raw op jitter st).result =
      op k (keyAt raw ((st + k) % (parseKeys raw).length)) := by
  have hne : (parseKeys raw).length ≠ 0 := by omega
  have h := retryLoop_terminates_at raw op jitter k
    (min (parseKeys raw).length 5) 0 st undefinedError hk hst
    (fun j hj s => by simpa using hfail j hj s)
    (fun s => Or.inl (by simpa using hok s))
  rw [executeWithRetry_of_ne raw op jitter st hne, h]
  refine ⟨rfl, by simp, ?_, by simp⟩
  intro hnd
  show ((List.range (k + 1)).map
    (fun j => keyAt raw ((st + j) % (parseKeys raw).length))).Nodup
  refine List.Nodup.map_on ?_ (List.nodup_range _)
  intro x hx y hy hxy
  have hx' : x < k + 1 := List.mem_range.mp hx
  have hy' : y < k + 1 := List.mem_range.mp hy
  have hxn : (st + x) % (parseKeys raw).length < (parseKeys raw).length :=
    Nat.mod_lt _ (by omega)
  have hyn : (st + y) % (parseKeys raw).length < (parseKeys raw).length :=
    Nat.mod_lt _ (by omega)
  unfold keyAt at hxy
  rw [List.getD_eq_getElem _ _ hxn, List.getD_eq_getElem _ _ hyn] at hxy
  have hmodeq : (st + x) % (parseKeys raw).length
      = (st + y) % (parseKeys raw).length :=
    (List.Nodup.getElem_inj_iff hnd).mp hxy
  have hcancel : x % (parseKeys raw).length = y % (parseKeys raw).length :=
    Nat.ModEq.add_left_cancel' st hmodeq
  rwa [Nat.mod_eq_of_lt (by omega), Nat.mod_eq_of_lt (by omega)] at hcancel

/-- C1 counterexample: with the duplicate-entry pool `"a,a"` (size 2), one
rate-limited failure followed by a success passes the SAME credential string
`"a"` to both invocations, so the `k+1 = 2` consumed credentials are not
distinct and a credential is reused within one logical call even though the
pool size equals the budget. -/
theorem c1_duplicate_pool_reuses_credential :
    (executeWithRetry "a,a".toList
        (fun i _ => if i < 1 then .error ⟨none, some 429⟩ else .ok (0 : Nat))
        (fun _ => 0) 0).calls = [['a'], ['a']] ∧
    ¬ (executeWithRetry "a,a".toList
        (fun i _ => if i < 1 then .error ⟨none, some 429⟩ else .ok (0 : Nat))
        (fun _ => 0) 0).calls.Nodup := by
  constructor
  · decide
  · decide

/-- C1 witness at the pool `"A,B"`, one rate-limited failure, success on the
second invocation with value 7. -/
theorem c1_retry_rotate_succeed_witness :
    (executeWithRetry "A,B".toList
        (fun i _ => if i < 1 then .error ⟨none, some 429⟩ else .ok (7 : Nat))
        (fun _ => 0) 0).calls =
      (List.range 2).map
        (fun j => keyAt "A,B".toList ((0 + j) % (parseKeys "A,B".toList).length)) ∧
    (executeWithRetry "A,B".toList
        (fun i _ => if i < 1 then .error ⟨none, some 429⟩ else .ok (7 : Nat))
        (fun _ => 0) 0).calls.length = 1 + 1 ∧
    ((parseKeys "A,B".toList).Nodup →
      (executeWithRetry "A,B".toList
        (fun i _ => if i < 1 then .error ⟨none, some 429⟩ else .ok (7 : Nat))
        (fun _ => 0) 0).calls.Nodup) ∧
    (executeWithRetry "A,B".toList
        (fun i _ => if i < 1 then .error ⟨none, some 429⟩ else .ok (7 : Nat))
        (fun _ => 0) 0).result = Except.ok 7 :=
  c1_retry_rotate_succeed "A,B".toList
    (fun i _ => if i < 1 then .error ⟨none, some 429⟩ else .ok (7 : Nat))
    (fun _ => 0) 0 1 (by decide) (by decide) (by decide)
    (fun j hj s => by
      have hj0 : j = 0 := by omega
      subst hj0
      exact ⟨⟨none, some 429⟩, rfl, by decide⟩)
    (fun s => ⟨7, rfl⟩)

/-- C2: with a non-empty pool of size `n` and cursor in bounds, if every
invocation fails rate-limited then `executeWithRetry` invokes the operation
exactly `min(n,5)` times and then throws exactly the error value produced by
the final attempt, unchanged. -/
theorem c2_exhausts_budget (raw : List Char)
    (op : Nat → List Char → Except JsError T) (jitter : Nat → ℚ) (st : Nat)
    (hn : 1 ≤ (parseKeys raw).length)
    (hst : st < (parseKeys raw).length)
    (hfail : ∀ j s, ∃ e, op j s = .error e ∧ isRateLimit e = true) :
    (executeWithRetry raw op jitter st).calls.length
        = min (parseKeys raw).length 5 ∧
    (executeWithRetry raw op jitter st).result =
      op (min (parseKeys raw).length 5 - 1)
        (keyAt raw ((st + (min (parseKeys raw).length 5 - 1))
          % (parseKeys raw).length)) ∧
    ∃ e, op (min (parseKeys raw).length 5 - 1)
        (keyAt raw ((st + (min (parseKeys raw).length 5 - 1))
          % (parseKeys raw).length)) = .error e ∧
      (executeWithRetry raw op jitter st).result = .error e := by
  have hne : (parseKeys raw).length ≠ 0 := by omega
  obtain ⟨m, hm⟩ : ∃ m, min (parseKeys raw).length 5 = m + 1 :=
    ⟨min (parseKeys raw).length 5 - 1, by omega⟩
  have hres : (executeWithRetry raw op jitter st).result =
      op (min (parseKeys raw).length 5 - 1)
        (keyAt raw ((st + (min (parseKeys raw).length 5 - 1))
          % (parseKeys raw).length)) := by
    rw [executeWithRetry_of_ne raw op jitter st hne, hm,
      retryLoop_all_rl raw op jitter hfail m 0 st undefinedError hst]
    simp
  refine ⟨?_, hres, ?_⟩
  · rw [executeWithRetry_of_ne raw op jitter st hne, hm,
      retryLoop_all_rl raw op jitter hfail m 0 st undefinedError hst]
    simp
  · obtain ⟨e, he, _⟩ := hfail (min (parseKeys raw).length 5 - 1)
      (keyAt raw ((st + (min (parseKeys raw).length 5 - 1))
        % (parseKeys raw).length))
    exact ⟨e, he, by rw [hres, he]⟩

/-- C2 witness at the pool `"A,B,C"` (budget 3) and an operation that always
fails with a 429 status. -/
theorem c2_exhausts_budget_witness :
    (executeWithRetry "A,B,C".toList
        (fun _ _ => (Except.error ⟨none, some 429⟩ : Except JsError Nat))
        (fun _ => 0) 0).calls.length = min (parseKeys "A,B,C".toList).length 5 ∧
    (executeWithRetry "A,B,C".toList
        (fun _ _ => (Except.error ⟨none, some 429⟩ : Except JsError Nat))
        (fun _ => 0) 0).result =
      (fun _ _ => (Except.error ⟨none, some 429⟩ : Except JsError Nat))
        (min (parseKeys "A,B,C".toList).length 5 - 1)
        (keyAt "A,B,C".toList ((0 + (min (parseKeys "A,B,C".toList).length 5 - 1))
          % (parseKeys "A,B,C".toList).length)) ∧
    ∃ e, (fun _ _ => (Except.error ⟨none, some 429⟩ : Except JsError Nat))
        (min (parseKeys "A,B,C".toList).length 5 - 1)
        (keyAt "A,B,C".toList ((0 + (min (parseKeys "A,B,C".toList).length 5 - 1))
          % (parseKeys "A,B,C".toList).length)) = .error e ∧
      (executeWithRetry "A,B,C".toList
        (fun _ _ => (Except.error ⟨none, some 429⟩ : Except JsError Nat))
        (fun _ => 0) 0).result = .error e :=
  c2_exhausts_budget "A,B,C".toList
    (fun _ _ => (Except.error ⟨none, some 429⟩ : Except JsError Nat))
    (fun _ => 0) 0 (by decide) (by decide)
    (fun j s => ⟨⟨none, some 429⟩, rfl, by decide⟩)

/-- C3: with a non-empty pool, cursor in bounds and `k < min(n,5)`: if the
operation fails rate-limited on its first `k` invocations and then fails
with an error classified OTHER on invocation `k+1`, `executeWithRetry`
aborts immediately: the operation is invoked exactly `k+1` times (once when
the first attempt is OTHER), exactly `k` backoff delays are taken (none for
the OTHER failure), no further credential is issued, and the exact failure
value of the final attempt is rethrown unchanged. -/
theorem c3_other_aborts (raw : List Char)
    (op : Nat → List Char → Except JsError T) (jitter : Nat → ℚ) (st k : Nat)
    (hn : 1 ≤ (parseKeys raw).length)
    (hst : st < (parseKeys raw).length)
    (hk : k < min (parseKeys raw).length 5)
    (hfail : ∀ j, j < k → ∀ s, ∃ e, op j s = .error e ∧ isRateLimit e = true)
    (hother : ∀ s, ∃ e, op k s = .error e ∧ isRateLimit e = false) :
    (executeWithRetry raw op jitter st).calls =
      (List.range (k + 1)).map
        (fun j => keyAt raw ((st + j) % (parseKeys raw).length)) ∧
    (executeWithRetry raw op jitter st).calls.length = k + 1 ∧
    (executeWithRetry raw op jitter st).delays.length = k ∧
    (executeWithRetry raw op jitter st).result =
      op k (keyAt raw ((st + k) % (parseKeys raw).length)) ∧
    ∃ e, op k (keyAt raw ((st + k) % (parseKeys raw).length)) = .error e ∧
      isRateLimit e = false ∧
      (executeWithRetry raw op jitter st).result = .error e := by
  have hne : (parseKeys raw).length ≠ 0 := by omega
  have h := retryLoop_terminates_at raw op jitter k
    (min (parseKeys raw).length 5) 0 st undefinedError hk hst
    (fun j hj s => by simpa using hfail j hj s)
    (fun s => Or.inr (by simpa using hother s))
  have hres : (executeWithRetry raw op jitter st).result =
      op k (keyAt raw ((st + k) % (parseKeys raw).length)) := by
    rw [executeWithRetry_of_ne raw op jitter st hne, h]
    simp
  refine ⟨?_, ?_, ?_, hres, ?_⟩
  · rw [executeWithRetry_of_ne raw op jitter st hne, h]
  · rw [executeWithRetry_of_ne raw op jitter st hne, h]
    simp
  · rw [executeWithRetry_of_ne raw op jitter st hne, h]
    simp
  · obtain ⟨e, he, hre⟩ := hother
      (keyAt raw ((st + k) % (parseKeys raw).length))
    exact ⟨e, he, hre, by rw [hres, he]⟩

/-- C3 witness at the pool `"A,B,C"`: one rate-limited failure, then an
`Invalid argument` failure; two invocations, one delay, the second error is
rethrown. -/
theorem c3_other_aborts_witness :
    (executeWithRetry "A,B,C".toList
        (fun i _ => if i < 1 then (Except.error ⟨none, some 429⟩ : Except JsError Nat)
          else .error ⟨some "Invalid argument".toList, none⟩)
        (fun _ => 0) 0).calls =
      (List.range 2).map
        (fun j => keyAt "A,B,C".toList ((0 + j) % (parseKeys "A,B,C".toList).length)) ∧
    (executeWithRetry "A,B,C".toList
        (fun i _ => if i < 1 then (Except.error ⟨none, some 429⟩ : Except JsError Nat)
          else .error ⟨some "Invalid argument".toList, none⟩)
        (fun _ => 0) 0).calls.length = 1 + 1 ∧
    (executeWithRetry "A,B,C".toList
        (fun i _ => if i < 1 then (Except.error ⟨none, some 429⟩ : Except JsError Nat)
          else .error ⟨some "Invalid argument".toList, none⟩)
        (fun _ => 0) 0).delays.length = 1 ∧
    (executeWithRetry "A,B,C".toList
        (fun i _ => if i < 1 then (Except.error ⟨none, some 429⟩ : Except JsError Nat)
          else .error ⟨some "Invalid argument".toList, none⟩)
        (fun _ => 0) 0).result =
      (fun i (_ : List Char) =>
        if i < 1 then (Except.error ⟨none, some 429⟩ : Except JsError Nat)
          else .error ⟨some "Invalid argument".toList, none⟩) 1
        (keyAt "A,B,C".toList ((0 + 1) % (parseKeys "A,B,C".toList).length)) ∧
    ∃ e, (fun i (_ : List Char) =>
        if i < 1 then (Except.error ⟨none, some 429⟩ : Except JsError Nat)
          else .error ⟨some "Invalid argument".toList, none⟩) 1
        (keyAt "A,B,C".toList ((0 + 1) % (parseKeys "A,B,C".toList).length))
          = .error e ∧
      isRateLimit e = false ∧
      (executeWithRetry "A,B,C".toList
        (fun i _ => if i < 1 then (Except.error ⟨none, some 429⟩ : Except JsError Nat)
          else .error ⟨some "Invalid argument".toList, none⟩)
        (fun _ => 0) 0).result = .error e :=
  c3_other_aborts "A,B,C".toList
    (fun i _ => if i < 1 then (Except.error ⟨none, some 429⟩ : Except JsError Nat)
      else .error ⟨some "Invalid argument".toList, none⟩)
    (fun _ => 0) 0 1 (by decide) (by decide) (by decide)
    (fun j hj s => by
      have hj0 : j = 0 := by omega
      subst hj0
      exact ⟨⟨none, some 429⟩, rfl, by decide⟩)
    (fun s => ⟨⟨some "Invalid argument".toList, none⟩, rfl, by decide⟩)

/-- C5 (amended): in one call of `executeWithRetry` a backoff delay follows
every rate-limited failure — including the final one when the budget is
exhausted, so up to `budget` delays occur (not `budget − 1`); with jitter in
`[0,1)` every delay lasts at least 200ms and strictly less than 500ms, and
the total added backoff latency is at most `budget × 500` ms. -/
theorem c5_backoff_bounds (raw : List Char)
    (op : Nat → List Char → Except JsError T) (jitter : Nat → ℚ) (st : Nat)
    (hjit : ∀ i, 0 ≤ jitter i ∧ jitter i < 1) :
    (executeWithRetry raw op jitter st).delays.length
        ≤ min (parseKeys raw).length 5 ∧
    (∀ d ∈ (executeWithRetry raw op jitter st).delays, 200 ≤ d ∧ d < 500) ∧
    (executeWithRetry raw op jitter st).delays.sum
        ≤ (min (parseKeys raw).length 5 : ℚ) * 500 := by
  by_cases hne : (parseKeys raw).length = 0
  · have hraw : parseKeys raw = [] := List.length_eq_zero.mp hne
    rw [executeWithRetry_of_empty raw op jitter st hraw]
    refine ⟨by simp, by simp, ?_⟩
    simp [hne]
  · rw [executeWithRetry_of_ne raw op jitter st hne]
    obtain ⟨hlen, hshape⟩ := retryLoop_delays_bound raw op jitter
      (min (parseKeys raw).length 5) 0 st undefinedError
    have hbnd : ∀ d ∈ (retryLoop raw op jitter
        (min (parseKeys raw).length 5) 0 st undefinedError).delays,
        200 ≤ d ∧ d < 500 := by
      intro d hd
      obtain ⟨j, rfl⟩ := hshape d hd
      obtain ⟨h0, h1⟩ := hjit j
      constructor
      · linarith
      · linarith
    refine ⟨hlen, hbnd, ?_⟩
    have hsum := List.sum_le_card_nsmul
      (retryLoop raw op jitter (min (parseKeys raw).length 5) 0 st
        undefinedError).delays
      (500 : ℚ) (fun x hx => le_of_lt (hbnd x hx).2)
    refine le_trans hsum ?_
    rw [nsmul_eq_mul]
    have hcast : ((retryLoop raw op jitter (min (parseKeys raw).length 5) 0 st
        undefinedError).delays.length : ℚ)
        ≤ (min (parseKeys raw).length 5 : ℚ) := by
      exact_mod_cast hlen
    exact mul_le_mul_of_nonneg_right hcast (by norm_num)

/-- C5 counterexample: with the single-key pool `"a"` (budget 1) and an
operation that always rate-limits, one backoff delay is awaited after the
final (and only) attempt before the error is rethrown, so `budget` delays
occur while the claim allows at most `budget − 1 = 0`. -/
theorem c5_delay_after_last_attempt :
    (executeWithRetry "a".toList
        (fun _ _ => (Except.error ⟨none, some 429⟩ : Except JsError Nat))
        (fun _ => 0) 0).delays.length = 1 ∧
    min (parseKeys "a".toList).length 5 - 1 = 0 := by
  constructor
  · decide
  · decide

/-- C5 witness at the single-key pool `"A"` with jitter constantly 1/2. -/
theorem c5_backoff_bounds_witness :
    (executeWithRetry "A".toList
        (fun _ _ => (Except.error ⟨none, some 429⟩ : Except JsError Nat))
        (fun _ => (1 : ℚ) / 2) 0).delays.length
        ≤ min (parseKeys "A".toList).length 5 ∧
    (∀ d ∈ (executeWithRetry "A".toList
        (fun _ _ => (Except.error ⟨none, some 429⟩ : Except JsError Nat))
        (fun _ => (1 : ℚ) / 2) 0).delays, 200 ≤ d ∧ d < 500) ∧
    (executeWithRetry "A".toList
        (fun _ _ => (Except.error ⟨none, some 429⟩ : Except JsError Nat))
        (fun _ => (1 : ℚ) / 2) 0).delays.sum
        ≤ (min (parseKeys "A".toList).length 5 : ℚ) * 500 :=
  c5_backoff_bounds "A".toList
    (fun _ _ => (Except.error ⟨none, some 429⟩ : Except JsError Nat))
    (fun _ => (1 : ℚ) / 2) 0
    (fun i => ⟨by norm_num, by norm_num⟩)

/-- C9 witness at a 40-character credential. -/
theorem c9_masking_witness :
    ¬ ("ABCDEFGHIJKLMNOPQRSTUVWXYZabcdefghijklmn".toList <:+:
        maskKey "ABCDEFGHIJKLMNOPQRSTUVWXYZabcdefghijklmn".toList) ∧
    maskKey "ABCDEFGHIJKLMNOPQRSTUVWXYZabcdefghijklmn".toList =
      "ABCDEFGHIJKLMNOPQRSTUVWXYZabcdefghijklmn".toList.take 8 ++
        ('.' :: '.' :: '.' :: []) ++
        "ABCDEFGHIJKLMNOPQRSTUVWXYZabcdefghijklmn".toList.drop 36 ∧
    (maskKey "ABCDEFGHIJKLMNOPQRSTUVWXYZabcdefghijklmn".toList).length = 15 :=
  ⟨(c9_masking "ABCDEFGHIJKLMNOPQRSTUVWXYZabcdefghijklmn".toList).1 (by decide),
   ((c9_masking "ABCDEFGHIJKLMNOPQRSTUVWXYZabcdefghijklmn".toList).2 (by decide)).1,
   ((c9_masking "ABCDEFGHIJKLMNOPQRSTUVWXYZabcdefghijklmn".toList).2 (by decide)).2⟩

end Claims

end Eduvision
